import Mathlib

/-!
# CareCrew retrieval-and-verification core: a shallow embedding

A shallow embedding of the retrieval-and-verification core of the CareCrew
repository (`data_analyze.py`, `fda_server_logic.py`, `mcp_server_fda.py`,
`agents/kb_agent.py`), with theorems settling the frozen claims about it.

Modelling conventions:
* Every network interaction (the local MCP tool servers and the public
  OpenFDA REST API) is represented by an oracle value describing the outcome
  of the request: an exception (timeout, connection error, malformed JSON),
  or a response with an HTTP status code and a parsed body.  A Python
  exception caught by the code is an oracle outcome, never a Lean error:
  the embedded functions are total, mirroring the fact that the Python
  functions let no exception escape.
* Python dictionaries read with `.get(key, default)` are represented by
  structures with `Option`-typed fields (`none` = key absent).
* Python strings are Lean `String`s; character-level operations
  (`str.strip`, `str.rsplit`, slicing, `len`) are modelled on the
  character list `String.data`, matching Python's code-point semantics.
* The module-level cache `kb_index_data` and the files on disk are passed
  explicitly: functions take the cache as an argument and return the
  updated cache, together with a count of storage accesses.
-/

/-- Python `str.strip()`: remove leading and trailing whitespace characters. -/
def pyStrip (s : String) : String :=
  ⟨((s.data.dropWhile Char.isWhitespace).reverse.dropWhile Char.isWhitespace).reverse⟩

/-! ## FDA drug-safety client (`data_analyze.py`, lines 74-168)

`get_openfda_warnings` first posts to the local FDA MCP server; on HTTP 200
with a dict result body it returns that result with `found = True`.  On any
other outcome (exception, non-200 status — which the code turns into a raised
exception — or a 200 whose `result` value is not a dict) it falls through to
the public OpenFDA REST API, querying by `brand_name` then `generic_name`;
if neither yields a result it returns the sentinel not-found record. -/

/-- The result record built by `get_openfda_warnings` (the Python dict with
keys `drug_name`, `brand`, `generic`, `warnings`, `found`); also the shape of
`FdaSingleDrugOutput` in `mcp_server_fda.py`. -/
structure DrugSafetyRecord where
  drug_name : String
  brand : String
  generic : String
  warnings : String
  found : Bool
  deriving Repr, DecidableEq

/-- The `result` value of a parsed MCP FDA response when it is a dict:
the fields `get_openfda_warnings` reads, each `none` when the key is absent.
The server also sends a `found` flag; the client code never reads it. -/
structure McpDict where
  brand : Option String
  generic : Option String
  warnings : Option String
  found : Option Bool
  deriving Repr, DecidableEq

/-- Outcome of the `requests.post` to the FDA MCP server combined with JSON
parsing: `exn` covers timeouts, connection errors and malformed bodies
(anything that raises inside the `try`), `resp status result` a response
whose body parsed, where `result = none` means the `result` value was not a
dict (`isinstance(data, dict)` fails) and `result = some d` gives the dict. -/
inductive McpResult where
  | exn : McpResult
  | resp (status : Nat) (result : Option McpDict) : McpResult
  deriving Repr, DecidableEq

/-- One entry of the public OpenFDA `results` array: first elements of
`openfda.brand_name`, `openfda.generic_name` and `warnings`, each `none` when
the key is absent (the code substitutes `"N/A"` / `"No warnings available."`). -/
structure FdaEntry where
  brand : Option String
  generic : Option String
  warnings : Option String
  deriving Repr, DecidableEq

/-- Outcome of one `requests.get` to the public OpenFDA API for one search
key: an exception, or a response with status and parsed `results` array. -/
inductive KeyResult where
  | exn : KeyResult
  | resp (status : Nat) (results : List FdaEntry) : KeyResult
  deriving Repr, DecidableEq

/-- The network environment one `get_openfda_warnings` call runs in: the MCP
POST outcome and, per search key (`"brand_name"`, `"generic_name"`), the
public-API GET outcome. -/
structure FdaOracle where
  mcp : McpResult
  web : String → KeyResult

/-- The record `get_openfda_warnings` builds from a public-API entry
(`data_analyze.py` lines 122-134): `found` is unconditionally `True`. -/
def entryRecord (drug_name : String) (e : FdaEntry) : DrugSafetyRecord :=
  { drug_name := drug_name
    brand := e.brand.getD "N/A"
    generic := e.generic.getD "N/A"
    warnings := e.warnings.getD "No warnings available."
    found := true }

/-- The step-3 sentinel record (`data_analyze.py` lines 140-146, identical in
`fda_server_logic.py` lines 38-44). -/
def notFoundRecord (drug_name : String) : DrugSafetyRecord :=
  { drug_name := drug_name
    brand := "N/A"
    generic := "N/A"
    warnings := "No data found."
    found := false }

/-- The `for key in ["brand_name", "generic_name"]` loop of the public-API
fallback (`data_analyze.py` lines 115-134, `fda_server_logic.py` lines 12-33):
an exception aborts the whole loop (caught outside it), a 200 with a
non-empty `results` array returns the first entry, anything else tries the
next key.  `none` means the loop produced no record (step 3 follows). -/
def fallbackKeys (web : String → KeyResult) (drug_name : String) :
    List String → Option DrugSafetyRecord
  | [] => none
  | key :: ks =>
    match web key with
    | .exn => none
    | .resp status results =>
      if status = 200 then
        match results with
        | e :: _ => some (entryRecord drug_name e)
        | [] => fallbackKeys web drug_name ks
      else fallbackKeys web drug_name ks

/-- The public OpenFDA fallback: the key loop run on the two search keys. -/
def openfda_fallback (web : String → KeyResult) (drug_name : String) :
    Option DrugSafetyRecord :=
  fallbackKeys web drug_name ["brand_name", "generic_name"]

/-- Step 1 of `get_openfda_warnings` (lines 81-110): the primary MCP result,
`some` exactly when the POST returned status 200 with a dict result body.
The dict's own `found` flag is ignored; the record's `found` is `True`. -/
def mcpPrimary (drug_name : String) : McpResult → Option DrugSafetyRecord
  | .exn => none
  | .resp status result =>
    if status = 200 then
      match result with
      | some data =>
        some { drug_name := drug_name
               brand := data.brand.getD "N/A"
               generic := data.generic.getD "N/A"
               warnings := data.warnings.getD "No warnings available."
               found := true }
      | none => none
    else none

/-- `get_openfda_warnings` (`data_analyze.py` lines 74-146): primary MCP
result if step 1 succeeded, else the public-API fallback, else the sentinel. -/
def get_openfda_warnings (o : FdaOracle) (drug_name : String) : DrugSafetyRecord :=
  match mcpPrimary drug_name o.mcp with
  | some r => r
  | none =>
    match openfda_fallback o.web drug_name with
    | some r => r
    | none => notFoundRecord drug_name

/-- The batch report shape returned by `get_openfda_warnings_batch`,
`_call_openfda_api_batch` and `check_multiple_drugs` (`FdaBatchOutput`). -/
structure BatchReport where
  status : String
  count : Nat
  results : List DrugSafetyRecord
  deriving Repr, DecidableEq

/-- The shared loop body of `get_openfda_warnings_batch` (`data_analyze.py`
lines 154-161) and `_call_openfda_api_batch` (`fda_server_logic.py` lines
48-55): strip each name, skip it when the stripped name is empty, otherwise
append the per-drug lookup result. -/
def batchResults (lookup : String → DrugSafetyRecord) : List String → List DrugSafetyRecord
  | [] => []
  | drug :: rest =>
    let clean_name := pyStrip drug
    if clean_name = "" then batchResults lookup rest
    else lookup clean_name :: batchResults lookup rest

/-- `get_openfda_warnings_batch` (`data_analyze.py` lines 149-168): the
per-drug environment is given by an oracle per (cleaned) drug name. -/
def get_openfda_warnings_batch (o : String → FdaOracle) (medicine_list : List String) :
    BatchReport :=
  let results := batchResults (fun n => get_openfda_warnings (o n) n) medicine_list
  { status := if results = [] then "no_data" else "success"
    count := results.length
    results := results }

/-- `_call_openfda_api` (`fda_server_logic.py` lines 9-44): the direct
public-API lookup — the fallback loop, else the sentinel record. -/
def _call_openfda_api (web : String → KeyResult) (drug_name : String) : DrugSafetyRecord :=
  match openfda_fallback web drug_name with
  | some r => r
  | none => notFoundRecord drug_name

/-- `_call_openfda_api_batch` (`fda_server_logic.py` lines 46-62). -/
def _call_openfda_api_batch (web : String → String → KeyResult)
    (medicine_list : List String) : BatchReport :=
  let results := batchResults (fun n => _call_openfda_api (web n) n) medicine_list
  { status := if results = [] then "no_data" else "success"
    count := results.length
    results := results }

/-- `check_multiple_drugs` (`mcp_server_fda.py` lines 67-92): an empty or
all-blank input list short-circuits to status `"error"`; otherwise the direct
batch runs and its status, results and recomputed count are returned. -/
def check_multiple_drugs (web : String → String → KeyResult) (drug_list : List String) :
    BatchReport :=
  if drug_list = [] ∨ ∀ d ∈ drug_list, pyStrip d = "" then
    { status := "error", count := 0, results := [] }
  else
    let batch_result := _call_openfda_api_batch web drug_list
    { status := batch_result.status
      count := batch_result.results.length
      results := batch_result.results }

/-! ## Chunker (`data_analyze.py`, lines 61-69)

`chunk_text` splits `text.split()` into windows `tokens[i:i + chunk_size]`,
advancing `i` by `chunk_size - overlap` (a Python `int`, possibly zero or
negative) while `i < len(tokens)`.  The claims quantify over the
whitespace-token sequence, so the embedding works on the token list; the
source's final `" ".join(chunk)` per window is dropped as a bijective
rendering of each window.  The loop is embedded with explicit fuel: `none`
means the loop was still running when the fuel ran out, so divergence of the
source loop shows as `none` for every fuel.  The source calls carry defaults
`chunk_size=400, overlap=50` (and `build_kb_index` passes `300, 50`). -/

/-- Clamp one Python slice endpoint: a negative index counts from the end
(floored at 0), a non-negative one is capped at the length. -/
def pyIdx (n : Nat) (i : Int) : Nat :=
  if i < 0 then ((n : Int) + i).toNat else min i.toNat n

/-- Python list slicing `l[i:j]` with `int` endpoints. -/
def pySlice {α : Type*} (l : List α) (i j : Int) : List α :=
  (l.take (pyIdx l.length j)).drop (pyIdx l.length i)

/-- The `while i < len(tokens)` loop of `chunk_text`, with fuel.  The index
`i` is a Python `int`: when `overlap > chunk_size` the step is negative and
`i` goes below zero, exactly as in the source. -/
def chunkLoop {α : Type*} (tokens : List α) (chunk_size overlap : Nat) :
    Nat → Int → Option (List (List α))
  | 0, i => if i < (tokens.length : Int) then none else some []
  | fuel + 1, i =>
    if i < (tokens.length : Int) then
      (chunkLoop tokens chunk_size overlap fuel (i + (chunk_size : Int) - (overlap : Int))).map
        (pySlice tokens i (i + (chunk_size : Int)) :: ·)
    else some []

/-- `chunk_text` on the token list, starting the loop at `i = 0`. -/
def chunk_text {α : Type*} (tokens : List α) (chunk_size overlap : Nat) (fuel : Nat) :
    Option (List (List α)) :=
  chunkLoop tokens chunk_size overlap fuel 0

/-- Suffix form of the chunk loop used by the proofs: the same recursion
expressed on the remaining token suffix instead of the index `i`. -/
def chunkAux {α : Type*} (w o : Nat) : Nat → List α → Option (List (List α))
  | _, [] => some []
  | 0, _ :: _ => none
  | fuel + 1, t :: ts =>
    (chunkAux w o fuel ((t :: ts).drop (w - o))).map ((t :: ts).take w :: ·)

/-- Concatenation of the chunks with the overlap removed: the first chunk
whole, every later chunk with its first `o` tokens dropped. -/
def reconstructChunks {α : Type*} (o : Nat) : List (List α) → List α
  | [] => []
  | c :: cs => c ++ (cs.map (List.drop o)).flatten

/-! ## Guideline-passage cleaning and dispatch (`agents/kb_agent.py`)

`kb_agent` first queries the KB MCP server; a 200 response whose result body
is a dict containing `guideline_snippets` yields that list, anything else
yields `None`.  A falsy result (`None` or the empty list) routes to the
local RAG lookup.  Every passage longer than 1000 characters is then
truncated to `passage[:950].rsplit(" ", 1)[0] + "..."`, and every passage is
stripped. -/

/-- Python `s.rsplit(" ", 1)[0]` on the character list: everything before
the last space, or the whole list when it holds no space. -/
def rsplitHead : List Char → List Char
  | [] => []
  | c :: cs =>
    if ' ' ∈ cs then c :: rsplitHead cs
    else if c = ' ' then [] else c :: cs

/-- The truncation step of `kb_agent` (`agents/kb_agent.py` lines 44-45). -/
def truncatePassage (passage : String) : String :=
  if 1000 < passage.length then (⟨rsplitHead (passage.data.take 950)⟩ : String) ++ "..."
  else passage

/-- The whole per-passage cleaning loop of `kb_agent` (lines 42-46):
truncate when over 1000 characters, then strip. -/
def kb_agent_clean (hits : List String) : List String :=
  hits.map (fun passage => pyStrip (truncatePassage passage))

/-- Outcome of the `requests.post` to the KB MCP server: an exception, or a
response with status and, when the parsed `result` is a dict containing
`guideline_snippets`, that list (`none` otherwise). -/
inductive KbMcpResult where
  | exn : KbMcpResult
  | resp (status : Nat) (snippets : Option (List String)) : KbMcpResult
  deriving Repr, DecidableEq

/-- `_fetch_kb_via_mcp` (`agents/kb_agent.py` lines 8-22): the snippet list
on a 200 with a well-formed body, `None` on everything else. -/
def _fetch_kb_via_mcp (m : KbMcpResult) : Option (List String) :=
  match m with
  | .exn => none
  | .resp status snippets => if status = 200 then snippets else none

/-- A retrieval hit of `rag_lookup_kb`: the Python dict
`{"passage": ..., "score": ...}` (the score an ideal-arithmetic rational). -/
structure RagHit where
  passage : String
  score : ℚ
  deriving Repr, DecidableEq

/-- The dispatch of `kb_agent` (lines 32-39) up to the chosen snippet list:
`hits` from the MCP server when truthy (non-`None` and non-empty), otherwise
the local RAG hits (`none` here = the "No guideline passages found" early
return); local passages are filtered for truthiness and stripped. -/
def kb_agent_hits (m : KbMcpResult) (local_hits : List RagHit) : Option (List String) :=
  match _fetch_kb_via_mcp m with
  | some (h :: hs) => some (h :: hs)
  | _ =>
    if local_hits = [] then none
    else some ((local_hits.filter (fun h => h.passage ≠ "")).map (fun h => pyStrip h.passage))

/-! ## KB index cache and semantic retrieval (`data_analyze.py`, lines 173-221)

The index data is the pair stored in `kb_index.pkl`: the FAISS `IndexFlatL2`
contents (one embedding vector per passage) and the passage list.  Embedding
vectors are ideal-arithmetic rational vectors (the float width is outside
the model).  The embedding model is an external capability, passed as a
function `String → List ℚ`.  Storage is an explicit environment:
`snapshot` is the content of `kb_index.pkl` (`none` = file absent) and
`pdfBuild` the index `build_kb_index` would produce from the STG PDF
(`none` = PDF absent; the build pipeline's outcome is an oracle because it
runs the external embedder). -/

/-- The dict `pickle`d in `kb_index.pkl`: the index vectors and passages. -/
structure KBData where
  vectors : List (List ℚ)
  passages : List String

/-- The storage environment of the KB index functions. -/
structure KBEnv where
  snapshot : Option KBData
  pdfBuild : Option KBData

/-- `load_kb_index` (`data_analyze.py` lines 190-194): the pickled data if
the snapshot file exists, else `None`. -/
def load_kb_index (env : KBEnv) : Option KBData := env.snapshot

/-- `ensure_kb_index` (`data_analyze.py` lines 196-207) with the module
global `kb_index_data` passed explicitly.  Returns (result, updated cache,
number of storage accesses performed by this call): a cache hit touches
storage not at all; a load attempt counts one access, a build after a failed
load one more.  When both the snapshot and the PDF are absent the function
returns `None` without setting the cache. -/
def ensure_kb_index (env : KBEnv) (kb_index_data : Option KBData) :
    Option KBData × Option KBData × Nat :=
  match kb_index_data with
  | some cached => (some cached, some cached, 0)
  | none =>
    match load_kb_index env with
    | some data => (some data, some data, 1)
    | none =>
      match env.pdfBuild with
      | some data => (some data, some data, 2)
      | none => (none, none, 1)

/-- Squared Euclidean distance of two vectors (FAISS `IndexFlatL2` scores
are squared L2 distances). -/
def sqDist (a b : List ℚ) : ℚ := ((a.zip b).map (fun p => (p.1 - p.2) ^ 2)).sum

/-- The comparison the modelled index search sorts by: ascending distance,
ties broken by ascending vector id (stable towards original passage order). -/
def faissLe (x y : ℚ × Int) : Bool := decide (x.1 < y.1 ∨ (x.1 = y.1 ∧ x.2 ≤ y.2))

/-- Modelled from the spec: `faiss.IndexFlatL2.search` (an external library
call, not code of this repository).  Spec 4.4: "Performs exhaustive L2
distance computation against every vector in the Index and returns the *k*
lowest-distance hits in ascending distance order (index 0 = nearest)", with
ties "stable by original Passage ordering".  Returns the distance array `D`
and the neighbor-id array `I`, paired by position; when `k` exceeds the
number of stored vectors the arrays are padded with id `-1`. -/
def faissSearch (vecs : List (List ℚ)) (q : List ℚ) (k : Nat) : List ℚ × List Int :=
  let scored := (List.range vecs.length).map (fun j => (sqDist q (vecs.getD j []), (j : Int)))
  let sorted := scored.mergeSort faissLe
  let top := sorted.take k
  (top.map Prod.fst ++ List.replicate (k - top.length) 0,
   top.map Prod.snd ++ List.replicate (k - top.length) (-1))

/-- The result loop of `rag_lookup_kb` (`data_analyze.py` lines 217-220):
for each id in `I` (in order), skip it unless `0 <= idx < len(passages)`,
and attach the score `D[list(I).index(idx)]` — the distance at the FIRST
position of the *value* `idx` in the full id array, as the source computes
it.  `allIds` stays the whole array while the iteration consumes it. -/
def ragCollectGo (passages : List String) (dists : List ℚ) (allIds : List Int) :
    List Int → List RagHit
  | [] => []
  | idx :: rest =>
    if 0 ≤ idx ∧ idx < (passages.length : Int) then
      { passage := passages.getD idx.toNat ""
        score := dists.getD (List.indexOf idx allIds) 0 } ::
        ragCollectGo passages dists allIds rest
    else ragCollectGo passages dists allIds rest

/-- The result loop of `rag_lookup_kb` over the full id array. -/
def ragCollect (passages : List String) (dists : List ℚ) (ids : List Int) : List RagHit :=
  ragCollectGo passages dists ids ids

/-- The search part of `rag_lookup_kb` (lines 213-221), given loaded data:
embed the query, search the index, collect the guarded results. -/
def rag_search (embed : String → List ℚ) (data : KBData) (query : String) (top_k : Nat) :
    List RagHit :=
  let emb := embed query
  let di := faissSearch data.vectors emb top_k
  ragCollect data.passages di.1 di.2

/-- `rag_lookup_kb` (`data_analyze.py` lines 209-221): ensure the index (the
cache passes through), return `[]` when it is unavailable, else search. -/
def rag_lookup_kb (embed : String → List ℚ) (env : KBEnv) (kb_index_data : Option KBData)
    (query : String) (top_k : Nat) : List RagHit × Option KBData :=
  let r := ensure_kb_index env kb_index_data
  match r.1 with
  | none => ([], r.2.1)
  | some data => (rag_search embed data query top_k, r.2.1)

/-- A 1100-character warning text (no spaces), used to exercise the batch
verifier with an over-threshold warning. -/
def bigWarning : String := ⟨List.replicate 1100 'w'⟩

/-- A 1100-character passage whose second character is its only space, used
to exercise the `kb_agent` truncation at a word boundary. -/
def bigPassage : String := ⟨'a' :: ' ' :: List.replicate 1098 'b'⟩

/-! ## Lemmas about the batch verifier -/

/-- The batch loop is exactly: strip every name, drop the blank ones, look
up each survivor in input order. -/
theorem batchResults_eq_filter_map (f : String → DrugSafetyRecord) (ms : List String) :
    batchResults f ms = ((ms.map pyStrip).filter (fun n => n ≠ "")).map f := by
  induction ms with
  | nil => rfl
  | cons d rest ih =>
    by_cases h : pyStrip d = "" <;> simp [batchResults, h, ih, List.filter_cons]

/-- The batch loop yields no record exactly when every input name strips to
the empty string. -/
theorem batchResults_eq_nil_iff (f : String → DrugSafetyRecord) (ms : List String) :
    batchResults f ms = [] ↔ ∀ d ∈ ms, pyStrip d = "" := by
  rw [batchResults_eq_filter_map]
  simp [List.map_eq_nil_iff, List.filter_eq_nil_iff]

/-- A record the MCP primary path produces carries `found = True`. -/
theorem mcpPrimary_found {n : String} {m : McpResult} {r : DrugSafetyRecord}
    (h : mcpPrimary n m = some r) : r.found = true := by
  unfold mcpPrimary at h
  split at h
  · exact absurd h (by simp)
  · split at h
    · split at h
      · cases h; rfl
      · exact absurd h (by simp)
    · exact absurd h (by simp)

/-- A record the public-API fallback loop produces carries `found = True`. -/
theorem fallbackKeys_found {web : String → KeyResult} {dn : String} {r : DrugSafetyRecord} :
    ∀ {ks : List String}, fallbackKeys web dn ks = some r → r.found = true := by
  intro ks
  induction ks with
  | nil => intro h; exact absurd h (by simp [fallbackKeys])
  | cons key ks ih =>
    intro h
    unfold fallbackKeys at h
    split at h
    · exact absurd h (by simp)
    · split at h
      · split at h
        · cases h; rfl
        · exact ih h
      · exact ih h

/-- C2: the batch verifier drops names that strip to the empty string,
produces exactly one record per remaining name in input order (the loop is
the strip-filter-map, so it is total: no exception escapes), converts a
per-item outcome where both the primary and the fallback path yield nothing
into the sentinel `found = False` record, and in particular
`verifyBatch(["aspirin", "", "unknownxyz123"])` with an environment in which
`unknownxyz123` resolves nowhere returns exactly two records in that order,
the second being the sentinel. -/
theorem c2_batch_isolation_ordering (o : String → FdaOracle)
    (h1 : mcpPrimary "unknownxyz123" (o "unknownxyz123").mcp = none)
    (h2 : openfda_fallback (o "unknownxyz123").web "unknownxyz123" = none) :
    (∀ (p : String → FdaOracle) (ms : List String),
      (get_openfda_warnings_batch p ms).results
        = ((ms.map pyStrip).filter (fun n => n ≠ "")).map
            (fun n => get_openfda_warnings (p n) n)) ∧
    (∀ (p : FdaOracle) (dn : String),
      mcpPrimary dn p.mcp = none → openfda_fallback p.web dn = none →
      get_openfda_warnings p dn = notFoundRecord dn) ∧
    (get_openfda_warnings_batch o ["aspirin", "", "unknownxyz123"]).results
      = [get_openfda_warnings (o "aspirin") "aspirin", notFoundRecord "unknownxyz123"] ∧
    notFoundRecord "unknownxyz123" =
      { drug_name := "unknownxyz123", brand := "N/A", generic := "N/A",
        warnings := "No data found.", found := false } := by
  have hfall : ∀ (p : FdaOracle) (dn : String),
      mcpPrimary dn p.mcp = none → openfda_fallback p.web dn = none →
      get_openfda_warnings p dn = notFoundRecord dn := by
    intro p dn hp hf
    simp [get_openfda_warnings, hp, hf]
  refine ⟨fun p ms => by
      simp [get_openfda_warnings_batch, batchResults_eq_filter_map], hfall, ?_, rfl⟩
  have ha : pyStrip "aspirin" = "aspirin" := by decide
  have hb : pyStrip "" = "" := by decide
  have hc : pyStrip "unknownxyz123" = "unknownxyz123" := by decide
  have hrec := hfall (o "unknownxyz123") "unknownxyz123" h1 h2
  simp [get_openfda_warnings_batch, batchResults, ha, hb, hc, hrec]

/-- C2 witness: the concrete batch of the claim, in an environment where
every network call fails. -/
theorem c2_witness :
    (∀ (p : String → FdaOracle) (ms : List String),
      (get_openfda_warnings_batch p ms).results
        = ((ms.map pyStrip).filter (fun n => n ≠ "")).map
            (fun n => get_openfda_warnings (p n) n)) ∧
    (∀ (p : FdaOracle) (dn : String),
      mcpPrimary dn p.mcp = none → openfda_fallback p.web dn = none →
      get_openfda_warnings p dn = notFoundRecord dn) ∧
    (get_openfda_warnings_batch (fun _ => ⟨.exn, fun _ => .exn⟩)
        ["aspirin", "", "unknownxyz123"]).results
      = [get_openfda_warnings ((fun (_ : String) => (⟨.exn, fun _ => .exn⟩ : FdaOracle)) "aspirin")
           "aspirin", notFoundRecord "unknownxyz123"] ∧
    notFoundRecord "unknownxyz123" =
      { drug_name := "unknownxyz123", brand := "N/A", generic := "N/A",
        warnings := "No data found.", found := false } :=
  c2_batch_isolation_ordering (fun _ => ⟨.exn, fun _ => .exn⟩) rfl rfl

/-- C8 (amended): for the two batch report builders
(`get_openfda_warnings_batch`, `_call_openfda_api_batch`) the status is
`"no_data"` iff the results sequence is empty and `"success"` otherwise —
unfound drugs still contribute `found = False` records under `"success"`.
The MCP wrapper `check_multiple_drugs`, however, short-circuits an empty or
all-blank input to status `"error"` (with an empty results sequence), and
otherwise reports `"success"` with a non-empty results sequence. -/
theorem c8_batch_status_amended (o : String → FdaOracle)
    (web : String → String → KeyResult) (ms : List String) :
    ((get_openfda_warnings_batch o ms).status = "no_data" ↔
      (get_openfda_warnings_batch o ms).results = []) ∧
    ((get_openfda_warnings_batch o ms).results ≠ [] →
      (get_openfda_warnings_batch o ms).status = "success") ∧
    ((_call_openfda_api_batch web ms).status = "no_data" ↔
      (_call_openfda_api_batch web ms).results = []) ∧
    ((_call_openfda_api_batch web ms).results ≠ [] →
      (_call_openfda_api_batch web ms).status = "success") ∧
    ((ms = [] ∨ ∀ d ∈ ms, pyStrip d = "") →
      (check_multiple_drugs web ms).status = "error" ∧
      (check_multiple_drugs web ms).results = []) ∧
    (¬(ms = [] ∨ ∀ d ∈ ms, pyStrip d = "") →
      (check_multiple_drugs web ms).status = "success" ∧
      (check_multiple_drugs web ms).results ≠ []) := by
  have hmain : ∀ rs : List DrugSafetyRecord,
      ((if rs = [] then "no_data" else "success") = "no_data" ↔ rs = []) := by
    intro rs
    by_cases h : rs = [] <;> simp [h]
  refine ⟨?_, ?_, ?_, ?_, ?_, ?_⟩
  · exact hmain _
  · intro h; simp only [get_openfda_warnings_batch] at *; rw [if_neg h]
  · exact hmain _
  · intro h; simp only [_call_openfda_api_batch] at *; rw [if_neg h]
  · intro h; unfold check_multiple_drugs; rw [if_pos h]; exact ⟨rfl, rfl⟩
  · intro h
    unfold check_multiple_drugs
    rw [if_neg h]
    have hne : ¬ ∀ d ∈ ms, pyStrip d = "" := fun hall => h (Or.inr hall)
    have hres : batchResults (fun n => _call_openfda_api (web n) n) ms ≠ [] := by
      intro hnil
      exact hne ((batchResults_eq_nil_iff _ ms).mp hnil)
    constructor
    · simp only [_call_openfda_api_batch]
      rw [if_neg hres]
    · simpa [_call_openfda_api_batch] using hres

/-- C8 counterexample: on the empty drug list the MCP batch wrapper returns
an empty results sequence with status `"error"`, not `"no_data"` — the
claimed "`no_data` iff empty" equivalence fails for it. -/
theorem c8_counterexample :
    (check_multiple_drugs (fun _ _ => .exn) []).results = [] ∧
    (check_multiple_drugs (fun _ _ => .exn) []).status = "error" ∧
    "error" ≠ "no_data" := by
  refine ⟨?_, ?_, by decide⟩ <;> simp [check_multiple_drugs]

/-- C8 witness: the dichotomy at a concrete one-element input where the
lookup finds nothing (the record has `found = false`, the status is still
`"success"`). -/
theorem c8_witness :
    ((get_openfda_warnings_batch (fun _ => ⟨.exn, fun _ => .exn⟩) ["aspirin"]).status = "no_data" ↔
      (get_openfda_warnings_batch (fun _ => ⟨.exn, fun _ => .exn⟩) ["aspirin"]).results = []) ∧
    ((get_openfda_warnings_batch (fun _ => ⟨.exn, fun _ => .exn⟩) ["aspirin"]).results ≠ [] →
      (get_openfda_warnings_batch (fun _ => ⟨.exn, fun _ => .exn⟩) ["aspirin"]).status = "success") ∧
    ((_call_openfda_api_batch (fun _ _ => .exn) ["aspirin"]).status = "no_data" ↔
      (_call_openfda_api_batch (fun _ _ => .exn) ["aspirin"]).results = []) ∧
    ((_call_openfda_api_batch (fun _ _ => .exn) ["aspirin"]).results ≠ [] →
      (_call_openfda_api_batch (fun _ _ => .exn) ["aspirin"]).status = "success") ∧
    ((["aspirin"] = [] ∨ ∀ d ∈ ["aspirin"], pyStrip d = "") →
      (check_multiple_drugs (fun _ _ => .exn) ["aspirin"]).status = "error" ∧
      (check_multiple_drugs (fun _ _ => .exn) ["aspirin"]).results = []) ∧
    (¬(["aspirin"] = [] ∨ ∀ d ∈ ["aspirin"], pyStrip d = "") →
      (check_multiple_drugs (fun _ _ => .exn) ["aspirin"]).status = "success" ∧
      (check_multiple_drugs (fun _ _ => .exn) ["aspirin"]).results ≠ []) :=
  c8_batch_status_amended (fun _ => ⟨.exn, fun _ => .exn⟩) (fun _ _ => .exn) ["aspirin"]

/-- C10: when the MCP primary path answers HTTP 200 with a dict result body,
the record's `found` flag is `True` unconditionally — the `found` flag the
remote body carries is never read — and `found = False` arises exactly when
the primary path produced no record and the public-lookup fallback produced
no record either. -/
theorem c10_found_unconditional (o : FdaOracle) (n : String) (d : McpDict)
    (h : o.mcp = .resp 200 (some d)) :
    (get_openfda_warnings o n).found = true ∧
    get_openfda_warnings o n =
      { drug_name := n, brand := d.brand.getD "N/A", generic := d.generic.getD "N/A",
        warnings := d.warnings.getD "No warnings available.", found := true } ∧
    (∀ (p : FdaOracle) (m : String),
      (get_openfda_warnings p m).found = false ↔
        mcpPrimary m p.mcp = none ∧ openfda_fallback p.web m = none) := by
  have hiff : ∀ (p : FdaOracle) (m : String),
      (get_openfda_warnings p m).found = false ↔
        mcpPrimary m p.mcp = none ∧ openfda_fallback p.web m = none := by
    intro p m
    unfold get_openfda_warnings
    cases hp : mcpPrimary m p.mcp with
    | some r => simp [mcpPrimary_found hp]
    | none =>
      cases hf : openfda_fallback p.web m with
      | some r => simp [fallbackKeys_found (hf : fallbackKeys _ _ _ = some r)]
      | none => simp [notFoundRecord]
  have hprim : get_openfda_warnings o n =
      { drug_name := n, brand := d.brand.getD "N/A", generic := d.generic.getD "N/A",
        warnings := d.warnings.getD "No warnings available.", found := true } := by
    simp [get_openfda_warnings, mcpPrimary, h]
  exact ⟨by rw [hprim], hprim, hiff⟩

/-- C10 witness: a 200 response whose body says `found: False` still yields
a client record with `found = True`. -/
theorem c10_witness :
    (get_openfda_warnings ⟨.resp 200 (some ⟨none, none, none, some false⟩), fun _ => .exn⟩
        "aspirin").found = true ∧
    get_openfda_warnings ⟨.resp 200 (some ⟨none, none, none, some false⟩), fun _ => .exn⟩
        "aspirin" =
      { drug_name := "aspirin", brand := (none : Option String).getD "N/A",
        generic := (none : Option String).getD "N/A",
        warnings := (none : Option String).getD "No warnings available.", found := true } ∧
    (∀ (p : FdaOracle) (m : String),
      (get_openfda_warnings p m).found = false ↔
        mcpPrimary m p.mcp = none ∧ openfda_fallback p.web m = none) :=
  c10_found_unconditional ⟨.resp 200 (some ⟨none, none, none, some false⟩), fun _ => .exn⟩
    "aspirin" ⟨none, none, none, some false⟩ rfl

/-- C9: with a persisted snapshot present, the first `ensure_kb_index` call
loads it (one storage access) and caches it, and the second call returns the
same cached data unchanged with zero storage accesses — one access in total
across the two calls. -/
theorem c9_idempotent_caching (env : KBEnv) (d : KBData) (h : env.snapshot = some d) :
    ensure_kb_index env none = (some d, some d, 1) ∧
    ensure_kb_index env (ensure_kb_index env none).2.1 = (some d, some d, 0) ∧
    (ensure_kb_index env (ensure_kb_index env none).2.1).1 = (ensure_kb_index env none).1 ∧
    (ensure_kb_index env none).2.2 + (ensure_kb_index env (ensure_kb_index env none).2.1).2.2
      = 1 := by
  have h1 : ensure_kb_index env none = (some d, some d, 1) := by
    simp [ensure_kb_index, load_kb_index, h]
  refine ⟨h1, ?_, ?_, ?_⟩ <;> rw [h1] <;> rfl

/-- C9 witness: the cache behaviour at a concrete environment holding a
snapshot. -/
theorem c9_witness :
    ensure_kb_index ⟨some ⟨[], []⟩, none⟩ none = (some ⟨[], []⟩, some ⟨[], []⟩, 1) ∧
    ensure_kb_index ⟨some ⟨[], []⟩, none⟩ (ensure_kb_index ⟨some ⟨[], []⟩, none⟩ none).2.1
      = (some ⟨[], []⟩, some ⟨[], []⟩, 0) ∧
    (ensure_kb_index ⟨some ⟨[], []⟩, none⟩ (ensure_kb_index ⟨some ⟨[], []⟩, none⟩ none).2.1).1
      = (ensure_kb_index ⟨some ⟨[], []⟩, none⟩ none).1 ∧
    (ensure_kb_index ⟨some ⟨[], []⟩, none⟩ none).2.2 +
      (ensure_kb_index ⟨some ⟨[], []⟩, none⟩
        (ensure_kb_index ⟨some ⟨[], []⟩, none⟩ none).2.1).2.2 = 1 :=
  c9_idempotent_caching ⟨some ⟨[], []⟩, none⟩ ⟨[], []⟩ rfl

/-- C7: when no snapshot can be loaded and the source document is absent,
`ensure_kb_index` yields no index and `rag_lookup_kb` returns the empty
sequence for every query and every `k` (and, being a total function of the
oracle outcomes, raises nothing). -/
theorem c7_retrieval_degradation (embed : String → List ℚ) (env : KBEnv)
    (h1 : env.snapshot = none) (h2 : env.pdfBuild = none) :
    (ensure_kb_index env none).1 = none ∧
    ∀ (query : String) (top_k : Nat),
      (rag_lookup_kb embed env none query top_k).1 = [] := by
  have he : ensure_kb_index env none = (none, none, 1) := by
    simp [ensure_kb_index, load_kb_index, h1, h2]
  exact ⟨by rw [he], fun query top_k => by simp [rag_lookup_kb, he]⟩

/-- C7 witness: the degradation at a concrete empty environment. -/
theorem c7_witness :
    (ensure_kb_index ⟨none, none⟩ none).1 = none ∧
    ∀ (query : String) (top_k : Nat),
      (rag_lookup_kb (fun _ => []) ⟨none, none⟩ none query top_k).1 = [] :=
  c7_retrieval_degradation (fun _ => []) ⟨none, none⟩ rfl rfl

/-! ## Lemmas about the chunker -/

/-- A Python slice with a non-negative start and width `w` is drop-then-take. -/
theorem pySlice_nonneg {α : Type*} (l : List α) (i : Int) (w : Nat) (hi : 0 ≤ i) :
    pySlice l i (i + (w : Int)) = (l.drop i.toNat).take w := by
  unfold pySlice pyIdx
  rw [if_neg (by omega), if_neg (by omega)]
  have h3 : (i + (w : Int)).toNat = i.toNat + w := by omega
  rw [h3]
  rcases le_or_lt l.length i.toNat with hle | hlt
  · have e1 : List.drop i.toNat l = [] := List.drop_eq_nil_of_le hle
    have e2 : List.drop (i.toNat ⊓ l.length) (List.take ((i.toNat + w) ⊓ l.length) l) = [] := by
      apply List.drop_eq_nil_of_le
      rw [List.length_take]
      omega
    rw [e1, e2, List.take_nil]
  · rw [min_eq_left (le_of_lt hlt)]
    rw [List.drop_take]
    have : min (i.toNat + w) l.length - i.toNat = min w (l.length - i.toNat) := by omega
    rw [this]
    have hlen : (l.drop i.toNat).length = l.length - i.toNat := List.length_drop _ _
    calc (l.drop i.toNat).take (min w (l.length - i.toNat))
        = (l.drop i.toNat).take (min w (l.drop i.toNat).length) := by rw [hlen]
      _ = ((l.drop i.toNat).take (l.drop i.toNat).length).take w := by
          rw [List.take_take, Nat.min_comm]
      _ = (l.drop i.toNat).take w := by rw [List.take_length]

/-- The index-based chunk loop equals the suffix-based recursion when the
overlap is smaller than the window. -/
theorem chunkLoop_eq_chunkAux {α : Type*} (tokens : List α) (w o : Nat) (how : o < w) :
    ∀ (fuel : Nat) (i : Int), 0 ≤ i →
      chunkLoop tokens w o fuel i = chunkAux w o fuel (tokens.drop i.toNat) := by
  intro fuel
  induction fuel with
  | zero =>
    intro i hi
    simp only [chunkLoop]
    by_cases h : i < (tokens.length : Int)
    · rw [if_pos h]
      cases hd : tokens.drop i.toNat with
      | nil =>
        rw [List.drop_eq_nil_iff] at hd
        omega
      | cons t ts => simp [chunkAux]
    · rw [if_neg h, List.drop_eq_nil_of_le (by omega)]
      simp [chunkAux]
  | succ fuel ih =>
    intro i hi
    simp only [chunkLoop]
    by_cases h : i < (tokens.length : Int)
    · rw [if_pos h]
      rw [ih (i + (w : Int) - (o : Int)) (by omega)]
      have htn : (i + (w : Int) - (o : Int)).toNat = i.toNat + (w - o) := by omega
      rw [htn, ← List.drop_drop, pySlice_nonneg tokens i w hi]
      cases hd : tokens.drop i.toNat with
      | nil =>
        rw [List.drop_eq_nil_iff] at hd
        omega
      | cons t ts => simp [chunkAux]
    · rw [if_neg h, List.drop_eq_nil_of_le (by omega)]
      simp [chunkAux]

/-- Division step for the chunk count: one more window accounts for one more
`ceil` unit. -/
theorem chunk_count_step (n s : Nat) (hn : 0 < n) (hs : 0 < s) :
    (n + s - 1) / s = (n - s + s - 1) / s + 1 := by
  rcases le_or_lt n s with h | h
  · have h1 : n - s = 0 := by omega
    rw [h1]
    have h2 : (0 + s - 1) / s = 0 := Nat.div_eq_of_lt (by omega)
    rw [h2]
    exact Nat.div_eq_of_lt_le (by omega) (by omega)
  · have h2 : n + s - 1 = n - 1 + s := by omega
    have h3 : n - s + s - 1 = n - 1 := by omega
    rw [h2, h3, Nat.add_div_right _ hs]

/-- The suffix recursion terminates within `length` steps of fuel and yields
`ceil(length / (w - o))` chunks. -/
theorem chunkAux_count {α : Type*} (w o : Nat) (how : o < w) :
    ∀ (fuel : Nat) (rest : List α), rest.length ≤ fuel →
      ∃ cs, chunkAux w o fuel rest = some cs ∧
        cs.length = (rest.length + (w - o) - 1) / (w - o) := by
  intro fuel
  induction fuel with
  | zero =>
    intro rest h
    have hrest : rest = [] := List.eq_nil_of_length_eq_zero (by omega)
    subst hrest
    have h0 : (0 + (w - o) - 1) / (w - o) = 0 := Nat.div_eq_of_lt (by omega)
    exact ⟨[], by simp [chunkAux], by simpa using h0.symm⟩
  | succ fuel ih =>
    intro rest h
    cases rest with
    | nil =>
      have h0 : (0 + (w - o) - 1) / (w - o) = 0 := Nat.div_eq_of_lt (by omega)
      exact ⟨[], by simp [chunkAux], by simpa using h0.symm⟩
    | cons t ts =>
      have hlen : ((t :: ts).drop (w - o)).length ≤ fuel := by
        rw [List.length_drop]
        simp only [List.length_cons] at h ⊢
        omega
      obtain ⟨cs, hcs, hcl⟩ := ih _ hlen
      refine ⟨(t :: ts).take w :: cs, by simp [chunkAux, hcs], ?_⟩
      rw [List.length_cons, hcl, List.length_drop]
      rw [← chunk_count_step (t :: ts).length (w - o) (by simp) (by omega)]

/-- Dropping the overlap from every chunk of the suffix recursion and
concatenating yields the suffix with its first `o` tokens removed. -/
theorem chunkAux_flatten_drop {α : Type*} (w o : Nat) (how : o < w) :
    ∀ (fuel : Nat) (rest : List α) (cs : List (List α)),
      chunkAux w o fuel rest = some cs →
      (cs.map (List.drop o)).flatten = rest.drop o := by
  intro fuel
  induction fuel with
  | zero =>
    intro rest cs h
    cases rest with
    | nil =>
      simp [chunkAux] at h
      subst h
      simp
    | cons t ts => simp [chunkAux] at h
  | succ fuel ih =>
    intro rest cs h
    cases rest with
    | nil =>
      simp [chunkAux] at h
      subst h
      simp
    | cons t ts =>
      simp only [chunkAux, Option.map_eq_some'] at h
      obtain ⟨cs', hcs', rfl⟩ := h
      have hrec := ih _ _ hcs'
      rw [List.map_cons, List.flatten_cons, hrec, List.drop_take, List.drop_drop]
      have h1 : w - o + o = w := by omega
      rw [h1]
      have h2 : (t :: ts).drop w = ((t :: ts).drop o).drop (w - o) := by
        rw [List.drop_drop]
        congr 1
        omega
      rw [h2, List.take_append_drop]

/-- Reconstruction: the first chunk whole plus the overlap-stripped rest is
the original suffix. -/
theorem chunkAux_reconstruct {α : Type*} (w o : Nat) (how : o < w)
    (fuel : Nat) (rest : List α) (cs : List (List α))
    (h : chunkAux w o fuel rest = some cs) :
    reconstructChunks o cs = rest := by
  cases rest with
  | nil =>
    cases fuel <;> simp [chunkAux] at h <;> subst h <;> rfl
  | cons t ts =>
    cases fuel with
    | zero => simp [chunkAux] at h
    | succ fuel =>
      simp only [chunkAux, Option.map_eq_some'] at h
      obtain ⟨cs', hcs', rfl⟩ := h
      simp only [reconstructChunks]
      rw [chunkAux_flatten_drop w o how fuel _ _ hcs', List.drop_drop]
      have h1 : w - o + o = w := by omega
      rw [h1, List.take_append_drop]

/-- C3 (amended): for a non-empty token sequence of length `n`, window `w`,
overlap `o < w` and enough fuel (`n` steps suffice), `chunk_text` terminates
with exactly `ceil(n / (w - o))` chunks — not `ceil(max(n - o, 0) / (w - o))`
— and concatenating the chunks with the first `o` tokens of every chunk
after the first removed reconstructs the token sequence exactly. -/
theorem c3_chunk_count_reconstruction {α : Type*} (tokens : List α) (w o fuel : Nat)
    (how : o < w) (hne : tokens ≠ []) (hfuel : tokens.length ≤ fuel) :
    ∃ cs, chunk_text tokens w o fuel = some cs ∧
      cs.length = (tokens.length + (w - o) - 1) / (w - o) ∧
      reconstructChunks o cs = tokens := by
  have hb := chunkLoop_eq_chunkAux tokens w o how fuel 0 le_rfl
  obtain ⟨cs, hcs, hlen⟩ := chunkAux_count w o how fuel tokens hfuel
  refine ⟨cs, ?_, hlen, chunkAux_reconstruct w o how fuel tokens cs hcs⟩
  rw [chunk_text, hb]
  simpa using hcs

/-- C3 witness: five tokens, window 3, overlap 1. -/
theorem c3_witness :
    ∃ cs, chunk_text ([0, 1, 2, 3, 4] : List Nat) 3 1 5 = some cs ∧
      cs.length = (([0, 1, 2, 3, 4] : List Nat).length + (3 - 1) - 1) / (3 - 1) ∧
      reconstructChunks 1 cs = [0, 1, 2, 3, 4] :=
  c3_chunk_count_reconstruction [0, 1, 2, 3, 4] 3 1 5 (by decide) (by decide) (by decide)

/-- C3 counterexample: on five tokens with window 3 and overlap 1 the code
produces three chunks, while the claimed formula
`ceil(max(n - o, 0) / (w - o)) = ceil(4 / 2)` gives two. -/
theorem c3_counterexample :
    chunk_text ([0, 1, 2, 3, 4] : List Nat) 3 1 5 = some [[0, 1, 2], [2, 3, 4], [4]] ∧
    ([[0, 1, 2], [2, 3, 4], [4]] : List (List Nat)).length ≠
      (max (5 - 1) 0 + (3 - 1) - 1) / (3 - 1) := by
  constructor <;> decide

/-- C4: `chunk_text` performs no overlap validation — with `o ≥ w` on a
non-empty token sequence the loop's step is zero or negative and the loop
never terminates: it is still running whatever the fuel. -/
theorem c4_overlap_ge_window_diverges {α : Type*} (tokens : List α) (w o : Nat)
    (hne : tokens ≠ []) (hwo : w ≤ o) :
    ∀ fuel, chunk_text tokens w o fuel = none := by
  have hlen : 0 < tokens.length := List.length_pos.mpr hne
  have key : ∀ (fuel : Nat) (i : Int), i ≤ 0 → chunkLoop tokens w o fuel i = none := by
    intro fuel
    induction fuel with
    | zero =>
      intro i hi
      simp only [chunkLoop]
      rw [if_pos (by omega)]
    | succ fuel ih =>
      intro i hi
      simp only [chunkLoop]
      rw [if_pos (by omega), ih (i + (w : Int) - (o : Int)) (by omega)]
      rfl
  intro fuel
  exact key fuel 0 le_rfl

/-- C4 witness: a single token with window 2 and overlap 2 never finishes. -/
theorem c4_witness : chunk_text ([0] : List Nat) 2 2 5 = none :=
  c4_overlap_ge_window_diverges [0] 2 2 (by decide) (by decide) 5

/-! ## Lemmas about the `kb_agent` truncation -/

/-- `rsplit(" ", 1)[0]` never lengthens its input. -/
theorem rsplitHead_length_le : ∀ cs : List Char, (rsplitHead cs).length ≤ cs.length := by
  intro cs
  induction cs with
  | nil => simp [rsplitHead]
  | cons c cs ih =>
    simp only [rsplitHead]
    split
    · simpa using ih
    · split <;> simp

/-- Without a space, `rsplit(" ", 1)[0]` is the whole input. -/
theorem rsplitHead_of_no_space : ∀ cs : List Char, ' ' ∉ cs → rsplitHead cs = cs := by
  intro cs h
  cases cs with
  | nil => rfl
  | cons c cs =>
    have h1 : ' ' ∉ cs := fun hh => h (List.mem_cons_of_mem _ hh)
    have h2 : ¬ c = ' ' := fun hh => h (by rw [hh]; exact List.mem_cons_self _ _)
    simp [rsplitHead, h1, h2]

/-- With a space present, `rsplit(" ", 1)[0]` cuts exactly at the last
space: the input is the result, a space, and a space-free tail. -/
theorem rsplitHead_space_spec : ∀ cs : List Char, ' ' ∈ cs →
    ∃ t, cs = rsplitHead cs ++ ' ' :: t ∧ ' ' ∉ t := by
  intro cs
  induction cs with
  | nil => simp
  | cons c cs ih =>
    intro hmem
    by_cases h : ' ' ∈ cs
    · obtain ⟨t, ht, hnt⟩ := ih h
      refine ⟨t, ?_, hnt⟩
      simp only [rsplitHead, if_pos h]
      rw [List.cons_append, ← ht]
    · have hc : c = ' ' := by
        rcases List.mem_cons.mp hmem with h1 | h1
        · exact h1.symm
        · exact absurd h1 h
      subst hc
      exact ⟨cs, by simp [rsplitHead, h], h⟩

/-- C6 (amended): the 1000-character truncation policy lives in `kb_agent`'s
guideline-passage cleaning, not in the batch verifier.  There, a passage
longer than 1000 characters becomes `passage[:950].rsplit(" ", 1)[0] + "..."`:
at most 953 characters, and when the first 950 characters contain a space the
cut is exactly at the last such space (no broken word, at most 952
characters).  The batch verifier itself stores warning texts unmodified:
a warning delivered by the primary path appears verbatim in the record. -/
theorem c6_truncation_in_kb_agent (p : String) (hp : 1000 < p.length) :
    truncatePassage p = (⟨rsplitHead (p.data.take 950)⟩ : String) ++ "..." ∧
    (truncatePassage p).length ≤ 953 ∧
    (' ' ∈ p.data.take 950 →
      (∃ t, p.data.take 950 = rsplitHead (p.data.take 950) ++ ' ' :: t ∧ ' ' ∉ t) ∧
      (truncatePassage p).length ≤ 952) ∧
    (∀ (o : FdaOracle) (n : String) (d : McpDict) (wtext : String),
      o.mcp = .resp 200 (some d) → d.warnings = some wtext →
      (get_openfda_warnings o n).warnings = wtext) := by
  have heq : truncatePassage p = (⟨rsplitHead (p.data.take 950)⟩ : String) ++ "..." := by
    unfold truncatePassage
    rw [if_pos hp]
  have hlen950 : (p.data.take 950).length ≤ 950 := by
    rw [List.length_take]
    omega
  have hlen : (truncatePassage p).length = (rsplitHead (p.data.take 950)).length + 3 := by
    rw [heq, String.length_append]
    rfl
  refine ⟨heq, ?_, ?_, ?_⟩
  · rw [hlen]
    have := rsplitHead_length_le (p.data.take 950)
    omega
  · intro hsp
    obtain ⟨t, ht, hnt⟩ := rsplitHead_space_spec _ hsp
    refine ⟨⟨t, ht, hnt⟩, ?_⟩
    rw [hlen]
    have hl := congrArg List.length ht
    rw [List.length_append, List.length_cons] at hl
    omega
  · intro o n d wtext h1 h2
    simp [get_openfda_warnings, mcpPrimary, h1, h2]

/-- C6 witness: a concrete 1100-character passage. -/
theorem c6_witness :
    (truncatePassage bigPassage
        = (⟨rsplitHead (bigPassage.data.take 950)⟩ : String) ++ "..." ∧
      (truncatePassage bigPassage).length ≤ 953 ∧
      (' ' ∈ bigPassage.data.take 950 →
        (∃ t, bigPassage.data.take 950
            = rsplitHead (bigPassage.data.take 950) ++ ' ' :: t ∧ ' ' ∉ t) ∧
        (truncatePassage bigPassage).length ≤ 952) ∧
      (∀ (o : FdaOracle) (n : String) (d : McpDict) (wtext : String),
        o.mcp = .resp 200 (some d) → d.warnings = some wtext →
        (get_openfda_warnings o n).warnings = wtext)) :=
  c6_truncation_in_kb_agent bigPassage (by
    show 1000 < (String.length bigPassage)
    rw [show String.length bigPassage = bigPassage.data.length from rfl,
      show bigPassage.data = 'a' :: ' ' :: List.replicate 1098 'b' from rfl,
      List.length_cons, List.length_cons, List.length_replicate]
    omega)

/-- C6 counterexample: a 1100-character warning delivered to the batch
verifier is stored at full length — no truncation to at most 953 characters
happens on `DrugSafetyRecord` warning texts. -/
theorem c6_counterexample :
    ((get_openfda_warnings_batch
        (fun _ => ⟨.resp 200 (some ⟨none, none, some bigWarning, none⟩), fun _ => .exn⟩)
        ["aspirin"]).results.map (fun r => r.warnings.length)) = [1100] ∧
    ¬ (1100 ≤ 953) := by
  constructor
  · have ha : pyStrip "aspirin" = "aspirin" := by decide
    have hw : (get_openfda_warnings
        ⟨.resp 200 (some ⟨none, none, some bigWarning, none⟩), fun _ => .exn⟩
        "aspirin").warnings = bigWarning := by
      simp [get_openfda_warnings, mcpPrimary]
    have hwl : bigWarning.length = 1100 := by
      rw [show String.length bigWarning = bigWarning.data.length from rfl,
        show bigWarning.data = List.replicate 1100 'w' from rfl, List.length_replicate]
    simp [get_openfda_warnings_batch, batchResults, ha, hw, hwl]
  · decide

/-! ## The remote-first dispatcher (C1) -/

/-- C1 (amended): for the drug-safety operation, a primary HTTP 200 with a
dict result body is returned as the canonical result without consulting the
fallback (the result does not depend on the web oracle), and on any primary
failure the dispatcher returns exactly what the direct public-lookup path
(`_call_openfda_api`) produces — the same `DrugSafetyRecord` shape, so the
caller cannot tell the paths apart.  For the guideline operation the same
holds only when the 200 response carries a *non-empty* snippet list; a
well-formed 200 body whose snippet list is empty is treated like a failure
(`if not hits`), and on every such falsy primary outcome the secondary local
hits are normalized into the same `Option (List String)` shape. -/
theorem c1_remote_first_amended (web : String → KeyResult) (n : String) (d : McpDict)
    (m : KbMcpResult) (snips : List String) (local_hits : List RagHit)
    (hm : m = .resp 200 (some snips)) (hne : snips ≠ []) :
    (get_openfda_warnings ⟨.resp 200 (some d), web⟩ n =
      { drug_name := n, brand := d.brand.getD "N/A", generic := d.generic.getD "N/A",
        warnings := d.warnings.getD "No warnings available.", found := true }) ∧
    (∀ web', get_openfda_warnings ⟨.resp 200 (some d), web'⟩ n =
      get_openfda_warnings ⟨.resp 200 (some d), web⟩ n) ∧
    (∀ (p : FdaOracle) (dn : String), mcpPrimary dn p.mcp = none →
      get_openfda_warnings p dn = _call_openfda_api p.web dn) ∧
    (kb_agent_hits m local_hits = some snips) ∧
    (∀ other_local, kb_agent_hits m other_local = kb_agent_hits m local_hits) ∧
    (∀ (m' : KbMcpResult) (lh : List RagHit), (_fetch_kb_via_mcp m').getD [] = [] →
      kb_agent_hits m' lh =
        if lh = [] then none
        else some ((lh.filter (fun h => h.passage ≠ "")).map (fun h => pyStrip h.passage))) := by
  have hprim : ∀ web', get_openfda_warnings ⟨.resp 200 (some d), web'⟩ n =
      { drug_name := n, brand := d.brand.getD "N/A", generic := d.generic.getD "N/A",
        warnings := d.warnings.getD "No warnings available.", found := true } := by
    intro web'
    simp [get_openfda_warnings, mcpPrimary]
  have hkb : ∀ other_local, kb_agent_hits m other_local = some snips := by
    intro other_local
    subst hm
    cases snips with
    | nil => exact absurd rfl hne
    | cons s ss => simp [kb_agent_hits, _fetch_kb_via_mcp]
  refine ⟨hprim web, fun web' => (hprim web').trans (hprim web).symm, ?_, hkb local_hits,
    fun other_local => (hkb other_local).trans (hkb local_hits).symm, ?_⟩
  · intro p dn hp
    simp [get_openfda_warnings, hp, _call_openfda_api]
  · intro m' lh hfetch
    unfold kb_agent_hits
    cases hf : _fetch_kb_via_mcp m' with
    | none => rfl
    | some l =>
      cases l with
      | nil => rfl
      | cons s ss =>
        rw [hf] at hfetch
        exact absurd hfetch (by simp)

/-- C1 witness: a 200 drug-safety body and a 200 guideline body with one
snippet, with one local hit available. -/
theorem c1_witness :
    (get_openfda_warnings ⟨.resp 200 (some ⟨some "Bayer", none, none, none⟩), fun _ => .exn⟩
        "aspirin" =
      { drug_name := "aspirin", brand := (some "Bayer").getD "N/A",
        generic := (none : Option String).getD "N/A",
        warnings := (none : Option String).getD "No warnings available.", found := true }) ∧
    (∀ web', get_openfda_warnings ⟨.resp 200 (some ⟨some "Bayer", none, none, none⟩), web'⟩
        "aspirin" =
      get_openfda_warnings ⟨.resp 200 (some ⟨some "Bayer", none, none, none⟩), fun _ => .exn⟩
        "aspirin") ∧
    (∀ (p : FdaOracle) (dn : String), mcpPrimary dn p.mcp = none →
      get_openfda_warnings p dn = _call_openfda_api p.web dn) ∧
    (kb_agent_hits (.resp 200 (some ["snippet one"])) [⟨"local passage", 0⟩]
        = some ["snippet one"]) ∧
    (∀ other_local, kb_agent_hits (.resp 200 (some ["snippet one"])) other_local
        = kb_agent_hits (.resp 200 (some ["snippet one"])) [⟨"local passage", 0⟩]) ∧
    (∀ (m' : KbMcpResult) (lh : List RagHit), (_fetch_kb_via_mcp m').getD [] = [] →
      kb_agent_hits m' lh =
        if lh = [] then none
        else some ((lh.filter (fun h => h.passage ≠ "")).map (fun h => pyStrip h.passage))) :=
  c1_remote_first_amended (fun _ => .exn) "aspirin" ⟨some "Bayer", none, none, none⟩
    (.resp 200 (some ["snippet one"])) ["snippet one"] [⟨"local passage", 0⟩]
    rfl (by simp)

/-- C1 counterexample: the KB MCP server answers HTTP 200 with a well-formed
body whose snippet list is empty, yet the dispatcher consults the secondary
path and returns the local passage — not the primary's empty result. -/
theorem c1_counterexample :
    _fetch_kb_via_mcp (.resp 200 (some [])) = some [] ∧
    kb_agent_hits (.resp 200 (some [])) [{ passage := "local passage", score := 0 }]
      = some ["local passage"] ∧
    (some ["local passage"] : Option (List String)) ≠ some [] := by
  refine ⟨rfl, ?_, by simp⟩
  have hps : pyStrip "local passage" = "local passage" := by decide
  simp [kb_agent_hits, _fetch_kb_via_mcp, hps]

/-! ## Lemmas about the modelled index search and the result loop (C5) -/

/-- The search comparison is transitive. -/
theorem faissLe_trans (a b c : ℚ × Int) (hab : faissLe a b = true) (hbc : faissLe b c = true) :
    faissLe a c = true := by
  simp only [faissLe, decide_eq_true_eq] at *
  rcases hab with h1 | ⟨h1, h2⟩ <;> rcases hbc with h3 | ⟨h3, h4⟩
  · exact Or.inl (h1.trans h3)
  · exact Or.inl (h3 ▸ h1)
  · exact Or.inl (h1 ▸ h3)
  · exact Or.inr ⟨h1.trans h3, h2.trans h4⟩

/-- The search comparison is total. -/
theorem faissLe_total (a b : ℚ × Int) : (faissLe a b || faissLe b a) = true := by
  simp only [faissLe, Bool.or_eq_true, decide_eq_true_eq]
  rcases lt_trichotomy a.1 b.1 with h | h | h
  · exact Or.inl (Or.inl h)
  · rcases le_total a.2 b.2 with h2 | h2
    · exact Or.inl (Or.inr ⟨h, h2⟩)
    · exact Or.inr (Or.inr ⟨h.symm, h2⟩)
  · exact Or.inr (Or.inl h)

/-- Reading a list positionally through `getD` over its index range is the
list itself (mapped). -/
theorem rangeMap_getD {α β : Type*} (l : List α) (d : α) (f : α → β) :
    (List.range l.length).map (fun j => f (l.getD j d)) = l.map f := by
  apply List.ext_getElem
  · simp
  · intro i h1 h2
    have hi : i < l.length := by simpa using h2
    simp only [List.getElem_map, List.getElem_range]
    rw [List.getD_eq_getElem l d hi]

/-- The result loop distributes over appending of the iteration list. -/
theorem ragCollectGo_append (ps : List String) (ds : List ℚ) (all : List Int)
    (a b : List Int) :
    ragCollectGo ps ds all (a ++ b) =
      ragCollectGo ps ds all a ++ ragCollectGo ps ds all b := by
  induction a with
  | nil => rfl
  | cons x xs ih =>
    by_cases h : 0 ≤ x ∧ x < (ps.length : Int) <;>
      simp [ragCollectGo, h, ih]

/-- Negative ids (the `-1` padding) are all filtered out by the loop guard. -/
theorem ragCollectGo_all_neg (ps : List String) (ds : List ℚ) (all : List Int) :
    ∀ l : List Int, (∀ x ∈ l, x < 0) → ragCollectGo ps ds all l = [] := by
  intro l h
  induction l with
  | nil => rfl
  | cons x xs ih =>
    have hx : x < 0 := h x (List.mem_cons_self _ _)
    rw [ragCollectGo, if_neg (by omega)]
    exact ih fun y hy => h y (List.mem_cons_of_mem _ hy)

/-- On an iteration list of in-range ids whose first occurrence in the full
array sits at `p + j` for position `j`, the loop produces one hit per id,
positionally pairing passage `ids[j]` with distance `ds[p + j]`. -/
theorem ragCollectGo_valid (ps : List String) (ds : List ℚ) (all : List Int) :
    ∀ (it : List Int) (p : Nat),
      (∀ (j : Nat) (hj : j < it.length), 0 ≤ it[j] ∧ it[j] < (ps.length : Int)) →
      (∀ (j : Nat) (hj : j < it.length), List.indexOf it[j] all = p + j) →
      ragCollectGo ps ds all it =
        (List.range it.length).map
          (fun j => { passage := ps.getD (it.getD j 0).toNat ""
                      score := ds.getD (p + j) 0 : RagHit }) := by
  intro it
  induction it with
  | nil => intro p _ _; rfl
  | cons x xs ih =>
    intro p hval hidx
    have hx : 0 ≤ x ∧ x < (ps.length : Int) := by simpa using hval 0 (by simp)
    have hix : List.indexOf x all = p := by simpa using hidx 0 (by simp)
    rw [ragCollectGo, if_pos hx]
    rw [ih (p + 1)
      (fun j hj => by simpa using hval (j + 1) (by simpa using Nat.succ_lt_succ hj))
      (fun j hj => by
        have := hidx (j + 1) (by simpa using Nat.succ_lt_succ hj)
        simpa [Nat.add_assoc, Nat.add_comm 1 j] using this)]
    simp only [List.length_cons, List.range_succ_eq_map, List.map_cons, List.map_map]
    congr 1
    · simp [hix]
    · apply List.map_congr_left
      intro j hj
      simp only [Function.comp_apply, List.getD_cons_succ]
      congr 2
      omega

/-- Every hit the loop emits corresponds to an in-range id of the iteration
list, with the value-matched score the source computes. -/
theorem ragCollectGo_mem (ps : List String) (ds : List ℚ) (all : List Int) :
    ∀ (it : List Int) (hit : RagHit), hit ∈ ragCollectGo ps ds all it →
      ∃ idx ∈ it, 0 ≤ idx ∧ idx < (ps.length : Int) ∧
        hit.passage = ps.getD idx.toNat "" ∧
        hit.score = ds.getD (List.indexOf idx all) 0 := by
  intro it
  induction it with
  | nil => intro hit h; simp [ragCollectGo] at h
  | cons x xs ih =>
    intro hit h
    rw [ragCollectGo] at h
    by_cases hc : 0 ≤ x ∧ x < (ps.length : Int)
    · rw [if_pos hc] at h
      rcases List.mem_cons.mp h with h1 | h1
      · exact ⟨x, List.mem_cons_self _ _, hc.1, hc.2, by rw [h1], by rw [h1]⟩
      · obtain ⟨idx, hmem, rest⟩ := ih hit h1
        exact ⟨idx, List.mem_cons_of_mem _ hmem, rest⟩
    · rw [if_neg hc] at h
      obtain ⟨idx, hmem, rest⟩ := ih hit h
      exact ⟨idx, List.mem_cons_of_mem _ hmem, rest⟩

/-- C5: against a built index with one passage per vector, the search
returns `min k n` hits whose attached scores are exactly the first entries
of the distance array (position-indexed pairing — the source's
`D[list(I).index(idx)]` value-matching agrees with it because the id array
is duplicate-free, whatever duplicate *distances* occur), those scores are
the `min k n` smallest squared L2 distances in ascending order, and every
hit pairs a stored passage with its own distance to the query. -/
theorem c5_search_order_pairing (vecs : List (List ℚ)) (passages : List String)
    (q : List ℚ) (k : Nat) (hlen : vecs.length = passages.length) :
    (ragCollect passages (faissSearch vecs q k).1 (faissSearch vecs q k).2).length
        = min k vecs.length ∧
    (ragCollect passages (faissSearch vecs q k).1 (faissSearch vecs q k).2).map RagHit.score
        = (faissSearch vecs q k).1.take (min k vecs.length) ∧
    (faissSearch vecs q k).1.take (min k vecs.length)
        = ((vecs.map (sqDist q)).mergeSort (fun a b => decide (a ≤ b))).take
            (min k vecs.length) ∧
    List.Pairwise (fun a b : ℚ => a ≤ b)
      ((ragCollect passages (faissSearch vecs q k).1 (faissSearch vecs q k).2).map
        RagHit.score) ∧
    (∀ hit ∈ ragCollect passages (faissSearch vecs q k).1 (faissSearch vecs q k).2,
      ∃ j, j < vecs.length ∧ hit.passage = passages.getD j "" ∧
        hit.score = sqDist q (vecs.getD j [])) := by
  classical
  set dists := vecs.map (sqDist q) with hdists
  set scored := (List.range vecs.length).map
      (fun j => (sqDist q (vecs.getD j []), (j : Int))) with hscored
  set sorted := scored.mergeSort faissLe with hsortedEq
  set top := sorted.take k with htopEq
  set topD := top.map Prod.fst with htopDEq
  set topI := top.map Prod.snd with htopIEq
  set pad := k - top.length with hpadEq
  have hD : (faissSearch vecs q k).1 = topD ++ List.replicate pad 0 := rfl
  have hI : (faissSearch vecs q k).2 = topI ++ List.replicate pad (-1) := rfl
  have hperm : sorted.Perm scored := List.mergeSort_perm scored faissLe
  have hscoredlen : scored.length = vecs.length := by
    rw [hscored]; simp
  have hsortedlen : sorted.length = vecs.length := by
    rw [hperm.length_eq, hscoredlen]
  have htoplen : top.length = min k vecs.length := by
    rw [htopEq, List.length_take, hsortedlen]
  have htopDlen : topD.length = min k vecs.length := by
    rw [htopDEq, List.length_map, htoplen]
  have htopIlen : topI.length = min k vecs.length := by
    rw [htopIEq, List.length_map, htoplen]
  have hsorted_pw : List.Pairwise (fun a b => faissLe a b = true) sorted := by
    rw [hsortedEq]
    exact List.sorted_mergeSort faissLe_trans faissLe_total scored
  have hsorted_mem : ∀ x ∈ sorted, ∃ j : Nat, j < vecs.length ∧
      x = (sqDist q (vecs.getD j []), (j : Int)) := by
    intro x hx
    have hx2 : x ∈ scored := hperm.mem_iff.mp hx
    rw [hscored] at hx2
    simp only [List.mem_map, List.mem_range] at hx2
    obtain ⟨j, hj, hx3⟩ := hx2
    exact ⟨j, hj, hx3.symm⟩
  have htop_mem : ∀ x ∈ top, ∃ j : Nat, j < vecs.length ∧
      x = (sqDist q (vecs.getD j []), (j : Int)) := by
    intro x hx
    rw [htopEq] at hx
    exact hsorted_mem x (List.mem_of_mem_take hx)
  have hmapsnd : scored.map Prod.snd
      = List.map (fun j : Nat => (j : Int)) (List.range vecs.length) := by
    rw [hscored, List.map_map]
    rfl
  have hsortedI_nodup : (sorted.map Prod.snd).Nodup := by
    have hpermI : (sorted.map Prod.snd).Perm (scored.map Prod.snd) := hperm.map _
    rw [hpermI.nodup_iff, hmapsnd]
    exact (List.nodup_range _).map (fun a b h => Int.natCast_inj.mp (by simpa using h))
  have htopI_take : topI = (sorted.map Prod.snd).take k := by
    rw [htopIEq, htopEq, List.map_take]
  have htopI_nodup : topI.Nodup := by
    rw [htopI_take]
    exact List.Nodup.sublist (List.take_sublist _ _) hsortedI_nodup
  have htopI_getElem : ∀ (j : Nat) (hj : j < topI.length) (hj2 : j < top.length),
      topI[j] = Prod.snd (top.get ⟨j, hj2⟩) := by
    intro j hj hj2
    exact List.getElem_map _
  have htopI_elt : ∀ (j : Nat) (hj : j < topI.length),
      0 ≤ topI[j] ∧ topI[j] < (passages.length : Int) := by
    intro j hj
    have hj2 : j < top.length := by rw [htopIEq, List.length_map] at hj; exact hj
    obtain ⟨i, hi, hpair⟩ := htop_mem (top.get ⟨j, hj2⟩) (List.get_mem top j hj2)
    have he : topI[j] = (i : Int) := by
      rw [htopI_getElem j hj hj2, hpair]
    rw [he]
    refine ⟨Int.natCast_nonneg i, ?_⟩
    rw [← hlen]
    exact_mod_cast hi
  have hidx : ∀ (j : Nat) (hj : j < topI.length),
      List.indexOf topI[j] (topI ++ List.replicate pad (-1)) = 0 + j := by
    intro j hj
    rw [List.indexOf_append_of_mem (List.getElem_mem hj),
      List.indexOf_getElem htopI_nodup j hj]
    omega
  have hrag : ragCollect passages (faissSearch vecs q k).1 (faissSearch vecs q k).2 =
      (List.range topI.length).map
        (fun j => { passage := passages.getD (topI.getD j 0).toNat ""
                    score := ((faissSearch vecs q k).1).getD (0 + j) 0 : RagHit }) := by
    unfold ragCollect
    rw [hI, ragCollectGo_append]
    have hpadnil : ragCollectGo passages (faissSearch vecs q k).1
        (topI ++ List.replicate pad (-1)) (List.replicate pad (-1)) = [] := by
      apply ragCollectGo_all_neg
      intro x hx
      rw [List.eq_of_mem_replicate hx]
      omega
    rw [hpadnil, List.append_nil]
    exact ragCollectGo_valid passages _ _ topI 0 htopI_elt hidx
  have hraglen : (ragCollect passages (faissSearch vecs q k).1
      (faissSearch vecs q k).2).length = min k vecs.length := by
    rw [hrag, List.length_map, List.length_range, htopIlen]
  have hscores : (ragCollect passages (faissSearch vecs q k).1
        (faissSearch vecs q k).2).map RagHit.score = topD := by
    rw [hrag, List.map_map]
    have hstep : ∀ j ∈ List.range topI.length,
        (RagHit.score ∘ fun j => { passage := passages.getD (topI.getD j 0).toNat ""
                                   score := ((faissSearch vecs q k).1).getD (0 + j) 0
                                   : RagHit }) j
          = topD.getD j 0 := by
      intro j hj
      have hjlt : j < topI.length := List.mem_range.mp hj
      simp only [Function.comp_apply]
      show ((faissSearch vecs q k).1).getD (0 + j) 0 = topD.getD j 0
      rw [hD, Nat.zero_add]
      exact List.getD_append _ _ _ _ (by rw [htopDlen, ← htopIlen]; exact hjlt)
    rw [List.map_congr_left hstep]
    have hlen2 : topI.length = topD.length := by rw [htopIlen, htopDlen]
    rw [hlen2]
    simpa using rangeMap_getD topD 0 id
  have htopD_take : (faissSearch vecs q k).1.take (min k vecs.length) = topD := by
    rw [hD, ← htopDlen, List.take_left]
  have hpwfst : List.Pairwise (fun a b : ℚ => a ≤ b) (sorted.map Prod.fst) := by
    apply List.pairwise_map.mpr
    exact hsorted_pw.imp (fun {a b} h => by
      simp only [faissLe, decide_eq_true_eq] at h
      rcases h with h | ⟨h, _⟩
      · exact le_of_lt h
      · exact le_of_eq h)
  have hfst : scored.map Prod.fst = dists := by
    rw [hscored, List.map_map, hdists]
    exact rangeMap_getD vecs [] (sqDist q)
  have hms_sorted : List.Pairwise (fun a b : ℚ => a ≤ b)
      (dists.mergeSort (fun a b => decide (a ≤ b))) := by
    have h := @List.sorted_mergeSort ℚ (fun a b => decide (a ≤ b))
      (fun a b c h1 h2 => by
        simp only [decide_eq_true_eq] at *
        exact h1.trans h2)
      (fun a b => by
        simp only [Bool.or_eq_true, decide_eq_true_eq]
        exact le_total a b)
      dists
    exact h.imp (fun {a b} hh => by simpa using hh)
  have hsortedD : sorted.map Prod.fst = dists.mergeSort (fun a b => decide (a ≤ b)) := by
    apply List.eq_of_perm_of_sorted (r := fun a b : ℚ => a ≤ b) ?_ hpwfst hms_sorted
    have h1 : (sorted.map Prod.fst).Perm (scored.map Prod.fst) := hperm.map _
    rw [hfst] at h1
    exact h1.trans (List.mergeSort_perm dists _).symm
  have hmslen : (dists.mergeSort (fun a b => decide (a ≤ b))).length = vecs.length := by
    rw [List.length_mergeSort, hdists, List.length_map]
  have htopD_sorted_take : topD
      = (dists.mergeSort (fun a b => decide (a ≤ b))).take (min k vecs.length) := by
    rw [htopDEq, htopEq, List.map_take, hsortedD]
    rcases le_total k vecs.length with h | h
    · rw [min_eq_left h]
    · rw [min_eq_right h, List.take_of_length_le (by rw [hmslen]; exact h),
        List.take_of_length_le (by rw [hmslen])]
  refine ⟨hraglen, by rw [hscores, htopD_take], ?_, ?_, ?_⟩
  · rw [htopD_take, htopD_sorted_take]
  · rw [hscores, htopDEq, htopEq, List.map_take]
    exact List.Pairwise.sublist (List.take_sublist _ _) hpwfst
  · intro hit hmem
    rw [ragCollect] at hmem
    obtain ⟨idx, hidxmem, hge, hlt, hpass, hscore⟩ :=
      ragCollectGo_mem passages _ _ _ hit hmem
    rw [hI] at hidxmem
    rcases List.mem_append.mp hidxmem with hin | hin
    · have hjlt : List.indexOf idx topI < topI.length := List.indexOf_lt_length.mpr hin
      have hjget : topI[List.indexOf idx topI] = idx := List.getElem_indexOf hjlt
      have hjtop : List.indexOf idx topI < top.length := by
        rw [htopIEq, List.length_map] at hjlt
        exact hjlt
      obtain ⟨i, hi, hpair⟩ := htop_mem (top.get ⟨List.indexOf idx topI, hjtop⟩)
        (List.get_mem top (List.indexOf idx topI) hjtop)
      have hidval : idx = (i : Int) := by
        rw [← hjget, htopI_getElem (List.indexOf idx topI) hjlt hjtop, hpair]
      have hjD : List.indexOf idx topI < topD.length := by
        rw [htopDlen, ← htopIlen]
        exact hjlt
      have htopD_getElem : topD[List.indexOf idx topI]
          = Prod.fst (top.get ⟨List.indexOf idx topI, hjtop⟩) :=
        List.getElem_map _
      have hscore2 : hit.score = sqDist q (vecs.getD i []) := by
        rw [hscore, hI, List.indexOf_append_of_mem hin]
        rw [hD, List.getD_append _ _ _ _ hjD, List.getD_eq_getElem _ _ hjD]
        rw [htopD_getElem, hpair]
      refine ⟨i, hi, ?_, hscore2⟩
      rw [hpass, hidval]
      simp
    · exfalso
      rw [List.eq_of_mem_replicate hin] at hge
      omega

/-- C5 witness: a concrete two-vector index with one passage per vector. -/
theorem c5_witness :
    (ragCollect ["p0", "p1"] (faissSearch [[0], [2]] [0] 2).1
        (faissSearch [[0], [2]] [0] 2).2).length = min 2 ([[0], [2]] : List (List ℚ)).length ∧
    (ragCollect ["p0", "p1"] (faissSearch [[0], [2]] [0] 2).1
        (faissSearch [[0], [2]] [0] 2).2).map RagHit.score
      = (faissSearch [[0], [2]] [0] 2).1.take (min 2 ([[0], [2]] : List (List ℚ)).length) ∧
    (faissSearch [[0], [2]] [0] 2).1.take (min 2 ([[0], [2]] : List (List ℚ)).length)
      = ((([[0], [2]] : List (List ℚ)).map (sqDist [0])).mergeSort
          (fun a b => decide (a ≤ b))).take (min 2 ([[0], [2]] : List (List ℚ)).length) ∧
    List.Pairwise (fun a b : ℚ => a ≤ b)
      ((ragCollect ["p0", "p1"] (faissSearch [[0], [2]] [0] 2).1
        (faissSearch [[0], [2]] [0] 2).2).map RagHit.score) ∧
    (∀ hit ∈ ragCollect ["p0", "p1"] (faissSearch [[0], [2]] [0] 2).1
        (faissSearch [[0], [2]] [0] 2).2,
      ∃ j, j < ([[0], [2]] : List (List ℚ)).length ∧ hit.passage = ["p0", "p1"].getD j "" ∧
        hit.score = sqDist [0] (([[0], [2]] : List (List ℚ)).getD j [])) :=
  c5_search_order_pairing [[0], [2]] ["p0", "p1"] [0] 2 rfl
